import Mathlib

/-!
Verification of the InSAR infrastructure mapper (`insar_mapper.py`).

The program is a linear pipeline over a tabular dataset: load, filter by
row predicates, assign colors/shapes to categorical values, render/export.
This file gives a shallow embedding of the data model (pandas DataFrame as
a `Table` of rows over a named column list, with Python-style cell values)
and of every filter and the render-time symbol assignment, and proves the
spec's testable properties about them.
-/

namespace InSAR

/-- A cell value of the tabular dataset.  Pandas cells used by the program
are strings, integers, booleans, or missing values (NaN).  Latitude and
longitude cells are only ever carried around (never computed on in the
properties below), so any value may occupy them. -/
inductive Value where
  | str : String → Value
  | int : Int → Value
  | bool : Bool → Value
  | na : Value
deriving DecidableEq, Repr

/-- Python's `str()` conversion as applied by pandas `astype(str)` to the
cell values of `Value`:  strings are unchanged, integers print in decimal,
booleans print `True`/`False`, and NaN prints as `nan`. -/
def pyStr : Value → String
  | .str s => s
  | .int n => toString n
  | .bool b => if b then "True" else "False"
  | .na => "nan"

/-- Whether a value is a string cell. -/
def Value.isStr : Value → Bool
  | .str _ => true
  | _ => false

/-- Python's `needle in hay` substring test on strings, as used by the
filters (`any(sat in x for sat in satSystems)` and friends) and by
`str.contains` with a plain (non-regex-special) pattern. -/
def pySubstr (needle hay : String) : Bool :=
  decide (needle.toList <:+: hay.toList)

/-- ASCII lowercasing, modelling the case-insensitive comparison performed
by `str.contains('All', case=False)`.  Written character by character so
that it evaluates inside the kernel. -/
def pyLower (s : String) : String := String.mk (s.toList.map Char.toLower)

/-- Python `==` on cell values, as used by pandas element-wise comparison
(`df["valid"] == True`, `df["insarEnd"] == 99999999`) and by `isin`:
numbers and booleans compare numerically (`True == 1`), strings compare as
strings, NaN compares unequal to everything including itself. -/
def pyEq : Value → Value → Bool
  | .str a, .str b => a == b
  | .int a, .int b => a == b
  | .int a, .bool b => a == (if b then (1 : Int) else 0)
  | .bool a, .int b => (if a then (1 : Int) else 0) == b
  | .bool a, .bool b => a == b
  | _, _ => false

/-- A pandas DataFrame: an ordered list of named columns and an ordered
list of rows, each row holding one value per column (positionally). -/
structure Table where
  cols : List String
  rows : List (List Value)
deriving DecidableEq, Repr

/-- Reading the cell of row `r` in the column named `c` (Python
`row[c]` / `df[c]` element access).  A missing column or short row reads
as NaN. -/
def cellOf (cols : List String) (r : List Value) (c : String) : Value :=
  r.getD (cols.indexOf c) Value.na

/-- Well-formedness of a table: every row has exactly one value per
column.  This is the DataFrame invariant (every row has every column). -/
def Table.WF (t : Table) : Prop := ∀ r ∈ t.rows, r.length = t.cols.length

instance (t : Table) : Decidable t.WF := List.decidableBAll _ _

/-- All cells of column `c` are string values (the data model types the
categorical columns as strings). -/
def strTyped (t : Table) (c : String) : Prop :=
  ∀ r ∈ t.rows, (cellOf t.cols r c).isStr = true

instance (t : Table) (c : String) : Decidable (strTyped t c) :=
  List.decidableBAll _ _

/-- Source: `filter_valid` — keep rows where `df["valid"] == True`. -/
def filter_valid (t : Table) : Table :=
  { t with rows := t.rows.filter fun r => pyEq (cellOf t.cols r "valid") (Value.bool true) }

/-- Source: `filter_country` — keep rows whose `countryCode` is in the
given list (`df["countryCode"].isin(countries)`). -/
def filter_country (t : Table) (countries : List String) : Table :=
  { t with rows := t.rows.filter fun r =>
      countries.any fun c => pyEq (cellOf t.cols r "countryCode") (Value.str c) }

/-- Source: `filter_active` — keep rows where `df["insarEnd"] == 99999999`. -/
def filter_active (t : Table) : Table :=
  { t with rows := t.rows.filter fun r => pyEq (cellOf t.cols r "insarEnd") (Value.int 99999999) }

/-- Source: the `df[c] = df[c].astype(str)` step performed (on a copy) by
`filter_satSys`, `filter_instrClass` and `filter_lookDir` before testing
the column `c`: every cell of column `c` is replaced by its Python string
form.  Other columns are untouched. -/
def stringifyCol (t : Table) (c : String) : Table :=
  { t with rows := t.rows.map fun r =>
      r.set (t.cols.indexOf c) (Value.str (pyStr (cellOf t.cols r c))) }

/-- Source: the row mask of `filter_satSys` — the stringified `satSys`
value contains `'All'` case-insensitively, or contains one of the
requested system codes as a substring. -/
def satSysKeep (sats : List String) (v : Value) : Bool :=
  pySubstr "all" (pyLower (pyStr v)) || sats.any fun s => pySubstr s (pyStr v)

/-- Source: `filter_satSys` — stringify `satSys` (on a copy), keep rows
whose value contains `'All'` (case-insensitive) or any requested code. -/
def filter_satSys (t : Table) (satSystems : List String := ["S1A", "RS2"]) : Table :=
  let t1 := stringifyCol t "satSys"
  { t1 with rows := t1.rows.filter fun r => satSysKeep satSystems (cellOf t1.cols r "satSys") }

/-- Source: the `normalize` closure of `filter_instrClass` — return the
first member of `types` occurring in `instr` as a substring, or `instr`
itself when none occurs. -/
def normalizeInstr (types : List String) (instr : String) : String :=
  match types.find? (fun ty => pySubstr ty instr) with
  | some ty => ty
  | none => instr

/-- Source: the non-strict row mask of `filter_instrClass` — some member
of `types` occurs in the (stringified) `instrClass` value. -/
def instrKeep (types : List String) (v : Value) : Bool :=
  types.any fun ty => pySubstr ty (pyStr v)

/-- Source: the normalization write-back of non-strict `filter_instrClass`
on one kept row — the `instrClass` cell is rewritten to the first matching
member of `types`. -/
def normRow (cols : List String) (types : List String) (r : List Value) : List Value :=
  r.set (cols.indexOf "instrClass")
    (Value.str (normalizeInstr types (pyStr (cellOf cols r "instrClass"))))

/-- Source: `filter_instrClass` — stringify `instrClass` (on a copy), then
in strict mode keep rows whose value is exactly in `types`
(`isin(types)`); in non-strict mode keep rows whose value contains some
member of `types` and rewrite their `instrClass` to the first match. -/
def filter_instrClass (t : Table) (types : List String := ["CR"]) (strict : Bool := true) : Table :=
  let t1 := stringifyCol t "instrClass"
  if strict then
    { t1 with rows := t1.rows.filter fun r =>
        types.any fun ty => pyEq (cellOf t1.cols r "instrClass") (Value.str ty) }
  else
    let kept := t1.rows.filter fun r => instrKeep types (cellOf t1.cols r "instrClass")
    { t1 with rows := kept.map (normRow t1.cols types) }

/-- Source: `filter_owner` — keep rows whose `owner` is in the list. -/
def filter_owner (t : Table) (owners : List String := ["TUD"]) : Table :=
  { t with rows := t.rows.filter fun r =>
      owners.any fun o => pyEq (cellOf t.cols r "owner") (Value.str o) }

/-- Source: `filter_siteId` — keep rows whose `siteId` is in the list. -/
def filter_siteId (t : Table) (sites : List String := ["HENGELO"]) : Table :=
  { t with rows := t.rows.filter fun r =>
      sites.any fun s => pyEq (cellOf t.cols r "siteId") (Value.str s) }

/-- Source: `filter_lookDir` — stringify `lookDir` (on a copy), keep rows
whose value contains any of the direction codes as a substring. -/
def filter_lookDir (t : Table) (directions : List String := ["E"]) : Table :=
  let t1 := stringifyCol t "lookDir"
  { t1 with rows := t1.rows.filter fun r =>
      directions.any fun d => pySubstr d (pyStr (cellOf t1.cols r "lookDir")) }

/-- The rows selected (before the normalization write-back) by the
non-strict instrument-class filter: exactly the stringified rows whose
`instrClass` value contains some member of `types`. -/
def nonstrictKept (t : Table) (types : List String) : List (List Value) :=
  (stringifyCol t "instrClass").rows.filter fun r =>
    instrKeep types (cellOf t.cols r "instrClass")

/-- Pandas `Series.dropna()`: discard the missing values. -/
def dropna (vs : List Value) : List Value :=
  vs.filter fun v => decide (v ≠ Value.na)

/-- Pandas `Series.unique()`: the distinct values in order of first
occurrence (each later duplicate of an earlier value is dropped). -/
def uniqueFirst {α : Type} [DecidableEq α] : List α → List α
  | [] => []
  | a :: as => a :: (uniqueFirst as).filter fun b => decide (b ≠ a)

/-- The string contents of a list of string cells.  Python's `sorted`
requires the distinct values of the categorical columns to be mutually
comparable; per the data model they are strings, and the theorems about
the symbol assigner carry that typing hypothesis. -/
def strValsOf (vs : List Value) : List String :=
  vs.filterMap fun v => match v with | .str s => some s | _ => none

/-- All cells of column `c`, in row order (`df[c]`). -/
def colValues (t : Table) (c : String) : List Value :=
  t.rows.map fun r => cellOf t.cols r c

/-- Python's `<=` on strings: lexicographic comparison by code point
(the order `sorted` uses).  Phrased on the character lists so that it
evaluates inside the kernel; it agrees with the string order. -/
def pyLe (a b : String) : Prop := a.data ≤ b.data

instance : DecidableRel pyLe := fun a b => inferInstanceAs (Decidable (a.data ≤ b.data))

instance : IsTrans String pyLe := ⟨fun _ _ _ h1 h2 => le_trans h1 h2⟩

instance : IsTotal String pyLe := ⟨fun a b => le_total a.data b.data⟩

instance : IsAntisymm String pyLe :=
  ⟨fun _ _ h1 h2 => congrArg String.mk (le_antisymm h1 h2)⟩

/-- Source: `sorted(df[col].dropna().unique())` — the distinct non-null
values of a column, sorted ascending. -/
def distinctSorted (t : Table) (c : String) : List String :=
  List.insertionSort pyLe (uniqueFirst (strValsOf (dropna (colValues t c))))

/-- The ten values of matplotlib's `TABLEAU_COLORS`, in iteration order:
the fixed primary color palette. -/
def tableauColors : List String :=
  ["#1f77b4", "#ff7f0e", "#2ca02c", "#d62728", "#9467bd",
   "#8c564b", "#e377c2", "#7f7f7f", "#bcbd22", "#17becf"]

/-- Source: `while len(colors) < len(owners): colors += list(CSS4_COLORS.values())`
— extend the palette with copies of the secondary palette until it has at
least `n` entries.  The secondary palette (matplotlib's 148 `CSS4_COLORS`
values, an external library constant kept abstract here) is nonempty; on
an empty secondary palette the Python loop would not terminate, and this
model stops instead.  The loop is written with an explicit iteration
budget of `n` rounds — enough, since every round grows the palette by at
least one entry — so that it evaluates inside the kernel. -/
def extendColorsGo : Nat → List String → List String → Nat → List String
  | 0, colors, _, _ => colors
  | fuel + 1, colors, css4, n =>
    if colors.length < n then
      if css4.isEmpty then colors
      else extendColorsGo fuel (colors ++ css4) css4 n
    else colors

def extendColors (colors css4 : List String) (n : Nat) : List String :=
  extendColorsGo n colors css4 n

/-- Source: `owner_color_map = {owner: colors[i] for i, owner in enumerate(owners)}`
with `owners = sorted(df[owner_col].dropna().unique())` — the distinct
owner values sorted ascending, positionally paired with the extended
palette. -/
def ownerColorMapOf (css4 : List String) (t : Table) (ownerCol : String := "owner") :
    List (String × String) :=
  let owners := distinctSorted t ownerCol
  let colors := extendColors tableauColors css4 owners.length
  owners.zip colors

/-- Source: `icon_shapes = ["circle", "triangle", "square", "star", "diamond"]`. -/
def iconShapes : List String := ["circle", "triangle", "square", "star", "diamond"]

/-- Source: `instr_icon_map = {instr: icon_shapes[i % len(icon_shapes)] ...}`
over the sorted distinct instrument classes. -/
def instrIconMapOf (t : Table) (instrCol : String := "instrClass") :
    List (String × String) :=
  (distinctSorted t instrCol).enum.map fun p =>
    (p.2, iconShapes.getD (p.1 % iconShapes.length) "")

/-- Python `dict.get(k, default)` on a string-keyed map. -/
def dictGetS (m : List (String × String)) (k : String) (dflt : String) : String :=
  match m.find? (fun p => p.1 == k) with
  | some p => p.2
  | none => dflt

/-- Python `dict.get(value, default)` where the looked-up cell value may
not be a string: the maps built by the renderer are string-keyed, so a
non-string value (NaN in particular) is never a key and yields the
default. -/
def dictGetV (m : List (String × String)) (v : Value) (dflt : String) : String :=
  match v with
  | .str s => dictGetS m s dflt
  | _ => dflt

/-- Python `value in dict` for the renderer's string-keyed maps. -/
def valueInKeys (v : Value) (m : List (String × String)) : Bool :=
  match v with
  | .str s => m.any fun p => p.1 == s
  | _ => false

/-- One rendered marker: position, style resolved through the color and
shape maps (with the `"gray"` / `"circle"` fallbacks), and popup fields. -/
structure Marker where
  lat : Value
  lon : Value
  color : String
  shape : String
  popup : List (String × Value)
deriving DecidableEq, Repr

/-- The interactive map object produced by the renderer: title, one marker
per row, and the legend listing both symbol maps. -/
structure MapModel where
  title : String
  markers : List Marker
  legendOwners : List (String × String)
  legendInstr : List (String × String)
deriving DecidableEq, Repr

/-- Source: `plot_insar_points_interactive` — fail (returning no map and
writing nothing) when the table is empty or the latitude/longitude columns
are absent; otherwise build the color and shape maps from the table,
render one styled marker per row, and write the GeoJSON file always and
the HTML file when a path is supplied.  The returned pair is the map
object (`None` on failure) and the list of file paths written. -/
def plot_insar_points_interactive (t : Table) (css4 : List String)
    (latCol : String := "latitude") (lonCol : String := "longitude")
    (ownerCol : String := "owner") (instrCol : String := "instrClass")
    (popupCols : List String := ["siteId", "owner", "instrClass", "countryCode"])
    (mapTitle : String := "InSAR Target Locations")
    (saveHtmlPath : Option String := none)
    (saveGeojsonPath : String := "insar_points.geojson") :
    Option MapModel × List String :=
  if t.rows = [] ∨ t.cols = [] then (none, [])
  else if latCol ∉ t.cols ∨ lonCol ∉ t.cols then (none, [])
  else
    let colorMap := ownerColorMapOf css4 t ownerCol
    let iconMap := instrIconMapOf t instrCol
    let markers := t.rows.map fun r =>
      ({ lat := cellOf t.cols r latCol
         lon := cellOf t.cols r lonCol
         color := dictGetV colorMap (cellOf t.cols r ownerCol) "gray"
         shape := dictGetV iconMap (cellOf t.cols r instrCol) "circle"
         popup := (popupCols.filter fun c => t.cols.contains c).map
           fun c => (c, cellOf t.cols r c) } : Marker)
    (some { title := mapTitle, markers := markers,
            legendOwners := colorMap, legendInstr := iconMap },
     [saveGeojsonPath] ++ (match saveHtmlPath with | some p => [p] | none => []))

/-! ### Concrete tables used to instantiate the theorems -/

/-- The spec's end-to-end scenario table: instrument classes `CR123` and
`TR`. -/
def tInstr : Table := ⟨["instrClass"], [[Value.str "CR123"], [Value.str "TR"]]⟩

/-- A table with the three satellite-system cases: `All`, `S1A,RS2`, and
an unmatched value. -/
def tSatTbl : Table :=
  ⟨["satSys"], [[Value.str "All"], [Value.str "S1A,RS2"], [Value.str "ZZZ"]]⟩

/-- A one-row table carrying every column the filters touch. -/
def tFull : Table :=
  ⟨["valid", "countryCode", "insarEnd", "satSys", "instrClass", "owner", "siteId", "lookDir"],
   [[Value.bool true, Value.str "NLD", Value.int 99999999, Value.str "S1A",
     Value.str "CR", Value.str "TUD", Value.str "HENGELO", Value.str "E"]]⟩

/-- Two owners in one order. -/
def tOwnersA : Table := ⟨["owner"], [[Value.str "B"], [Value.str "A"]]⟩

/-- The same two owners in another order, with a repetition. -/
def tOwnersB : Table :=
  ⟨["owner"], [[Value.str "A"], [Value.str "B"], [Value.str "A"]]⟩

/-- A renderable table whose single row has a missing (NaN) owner. -/
def tNaOwner : Table :=
  ⟨["latitude", "longitude", "owner", "instrClass"],
   [[Value.str "1.0", Value.str "2.0", Value.na, Value.str "CR"]]⟩

/-- A one-row table with owner and instrument-class strings. -/
def tOwnerInstr : Table :=
  ⟨["latitude", "longitude", "owner", "instrClass"],
   [[Value.str "1.0", Value.str "2.0", Value.str "TUD", Value.str "CR"]]⟩

/-- A one-row table whose instrument class `CR123` is a proper superstring
of the requested type `CR`. -/
def tCR123 : Table := ⟨["instrClass"], [[Value.str "CR123"]]⟩

/-! ### Helper lemmas -/

theorem filter_sublist_mono {α : Type} (p q : α → Bool) (l : List α)
    (h : ∀ a, p a = true → q a = true) : (l.filter p).Sublist (l.filter q) := by
  induction l with
  | nil => simp
  | cons a as ih =>
    by_cases hp : p a = true
    · rw [List.filter_cons_of_pos hp, List.filter_cons_of_pos (h a hp)]
      exact ih.cons₂ a
    · rw [List.filter_cons_of_neg (by simpa using hp)]
      by_cases hq : q a = true
      · rw [List.filter_cons_of_pos hq]
        exact ih.cons a
      · rw [List.filter_cons_of_neg (by simpa using hq)]
        exact ih

theorem set_getD_self {α : Type} (l : List α) (i : Nat) (d : α) (h : i < l.length) :
    l.set i (l.getD i d) = l := by
  induction l generalizing i with
  | nil => simp at h
  | cons a as ih =>
    cases i with
    | zero => simp
    | succ n =>
      simp only [List.getD_cons_succ, List.set_cons_succ, List.cons.injEq, true_and]
      exact ih n (by simpa using h)

theorem cellOf_set_self (cols : List String) (r : List Value) (c : String) (v : Value)
    (hc : c ∈ cols) (hr : r.length = cols.length) :
    cellOf cols (r.set (cols.indexOf c) v) c = v := by
  have hi : cols.indexOf c < r.length := by
    rw [hr]; exact List.indexOf_lt_length.mpr hc
  unfold cellOf
  rw [List.getD_eq_getElem?_getD, List.getElem?_set_self (by simpa using hi)]
  rfl

theorem cellOf_set_ne (cols : List String) (r : List Value) (c c2 : String) (v : Value)
    (hne : c ≠ c2) (hr : r.length = cols.length) :
    cellOf cols (r.set (cols.indexOf c2) v) c = cellOf cols r c := by
  by_cases h2 : cols.indexOf c2 < cols.length
  · have hidx : cols.indexOf c2 ≠ cols.indexOf c := by
      intro heq
      have hc2 : cols.getD (cols.indexOf c2) "" = c2 :=
        List.getD_eq_getElem _ _ h2 ▸ List.getElem_indexOf h2
      have hcc : cols.getD (cols.indexOf c) "" = c := by
        have hlt : cols.indexOf c < cols.length := heq ▸ h2
        exact List.getD_eq_getElem _ _ hlt ▸ List.getElem_indexOf hlt
      rw [heq] at hc2
      exact hne (hcc.symm.trans hc2)
    unfold cellOf
    rw [List.getD_eq_getElem?_getD, List.getD_eq_getElem?_getD,
      List.getElem?_set_ne hidx]
  · have hge : cols.length ≤ cols.indexOf c2 := Nat.le_of_not_lt h2
    rw [List.set_eq_of_length_le (hr ▸ hge)]

theorem isStr_exists {v : Value} (h : v.isStr = true) : ∃ s, v = Value.str s := by
  cases v with
  | str s => exact ⟨s, rfl⟩
  | int n => simp [Value.isStr] at h
  | bool b => simp [Value.isStr] at h
  | na => simp [Value.isStr] at h

theorem stringifyCol_cols (t : Table) (c : String) : (stringifyCol t c).cols = t.cols := rfl

theorem cell_lt_of_str (cols : List String) (r : List Value) (c : String) (s : String)
    (hcell : cellOf cols r c = Value.str s) : cols.indexOf c < r.length := by
  by_contra hge
  have : cellOf cols r c = Value.na := by
    unfold cellOf
    exact List.getD_eq_default _ _ (Nat.le_of_not_lt hge)
  rw [this] at hcell
  exact Value.noConfusion hcell

theorem stringify_id_of_strTyped (t : Table) (c : String)
    (hstr : strTyped t c) : stringifyCol t c = t := by
  obtain ⟨cols, rows⟩ := t
  unfold stringifyCol
  simp only [Table.mk.injEq, true_and]
  refine (List.map_congr_left ?_).trans (List.map_id rows)
  intro r hr
  obtain ⟨s, hs⟩ := isStr_exists (hstr r hr)
  have hlt : cols.indexOf c < r.length := cell_lt_of_str cols r c s hs
  have hcell : cellOf cols r c = r.getD (cols.indexOf c) Value.na := rfl
  rw [hs, show pyStr (Value.str s) = s from rfl, show Value.str s = r.getD (cols.indexOf c) Value.na from (hcell ▸ hs).symm]
  exact set_getD_self r (cols.indexOf c) Value.na hlt

theorem mem_uniqueFirst {α : Type} [DecidableEq α] (a : α) :
    ∀ (l : List α), a ∈ uniqueFirst l ↔ a ∈ l := by
  intro l
  induction l with
  | nil => rfl
  | cons b bs ih =>
    simp only [uniqueFirst, List.mem_cons, List.mem_filter, ih, decide_eq_true_eq]
    constructor
    · rintro (h | ⟨h, _⟩)
      · exact Or.inl h
      · exact Or.inr h
    · rintro (h | h)
      · exact Or.inl h
      · by_cases hab : a = b
        · exact Or.inl hab
        · exact Or.inr ⟨h, hab⟩

theorem nodup_uniqueFirst {α : Type} [DecidableEq α] :
    ∀ (l : List α), (uniqueFirst l).Nodup := by
  intro l
  induction l with
  | nil => exact List.nodup_nil
  | cons b bs ih =>
    rw [uniqueFirst, List.nodup_cons]
    constructor
    · intro hmem
      have := (List.mem_filter.mp hmem).2
      simp at this
    · exact ih.filter _

theorem sorted_distinctSorted (t : Table) (c : String) :
    (distinctSorted t c).Sorted pyLe :=
  List.sorted_insertionSort _ _

theorem nodup_distinctSorted (t : Table) (c : String) : (distinctSorted t c).Nodup :=
  (List.perm_insertionSort _ _).nodup_iff.mpr (nodup_uniqueFirst _)

theorem mem_distinctSorted (t : Table) (c : String) (s : String) :
    s ∈ distinctSorted t c ↔ s ∈ strValsOf (dropna (colValues t c)) :=
  ((List.perm_insertionSort _ _).mem_iff).trans (mem_uniqueFirst s _)

theorem distinctSorted_eq_of_mem_iff (t1 t2 : Table) (c1 c2 : String)
    (h : ∀ s, s ∈ strValsOf (dropna (colValues t1 c1)) ↔
      s ∈ strValsOf (dropna (colValues t2 c2))) :
    distinctSorted t1 c1 = distinctSorted t2 c2 := by
  refine List.eq_of_perm_of_sorted ?_ (sorted_distinctSorted t1 c1) (sorted_distinctSorted t2 c2)
  refine (List.perm_ext_iff_of_nodup (nodup_distinctSorted t1 c1)
    (nodup_distinctSorted t2 c2)).mpr ?_
  intro s
  rw [mem_distinctSorted, mem_distinctSorted]
  exact h s

theorem extendColorsGo_length_ge (css4 : List String) (hcss : css4 ≠ []) :
    ∀ (fuel : Nat) (colors : List String) (n : Nat), n - colors.length ≤ fuel →
      n ≤ (extendColorsGo fuel colors css4 n).length := by
  intro fuel
  induction fuel with
  | zero =>
    intro colors n hle
    unfold extendColorsGo
    omega
  | succ m ih =>
    intro colors n hle
    unfold extendColorsGo
    by_cases h1 : colors.length < n
    · rw [if_pos h1]
      have hemp : css4.isEmpty = false := by
        cases css4 with
        | nil => exact absurd rfl hcss
        | cons a as => rfl
      rw [hemp]
      simp only [Bool.false_eq_true, if_false]
      refine ih (colors ++ css4) n ?_
      have hpos : 0 < css4.length := by
        cases css4 with
        | nil => exact absurd rfl hcss
        | cons a as => exact Nat.succ_pos _
      rw [List.length_append]
      omega
    · rw [if_neg h1]
      omega

theorem extendColors_length_ge (colors css4 : List String) (n : Nat) (hcss : css4 ≠ []) :
    n ≤ (extendColors colors css4 n).length :=
  extendColorsGo_length_ge css4 hcss n colors n (Nat.sub_le _ _)

theorem dictGetS_zip (d : String) :
    ∀ (keys vals : List String) (i : Nat), keys.Nodup → i < keys.length → i < vals.length →
      dictGetS (keys.zip vals) (keys.getD i "") d = vals.getD i d := by
  intro keys
  induction keys with
  | nil => intro vals i _ hik _; simp at hik
  | cons k ks ih =>
    intro vals i hn hik hiv
    cases vals with
    | nil => simp at hiv
    | cons v vs =>
      cases i with
      | zero =>
        simp only [List.getD_cons_zero, List.zip_cons_cons]
        unfold dictGetS
        rw [List.find?_cons_of_pos _ (by simp)]
      | succ j =>
        simp only [List.getD_cons_succ, List.zip_cons_cons]
        have hkne : k ≠ ks.getD j "" := by
          intro heq
          have hjk : j < ks.length := by simpa using hik
          have hmem : ks.getD j "" ∈ ks := by
            rw [List.getD_eq_getElem _ _ hjk]
            exact List.getElem_mem _
          rw [← heq] at hmem
          exact (List.nodup_cons.mp hn).1 hmem
        unfold dictGetS
        rw [List.find?_cons_of_neg _ (by simpa using hkne)]
        exact ih vs j (List.nodup_cons.mp hn).2 (by simpa using hik) (by simpa using hiv)

theorem find?_first_index (p : String → Bool) :
    ∀ (l : List String), (∃ x ∈ l, p x = true) →
      ∃ i, i < l.length ∧ p (l.getD i "") = true ∧
        l.find? p = some (l.getD i "") ∧ ∀ j, j < i → p (l.getD j "") = false := by
  intro l
  induction l with
  | nil => rintro ⟨x, hx, _⟩; simp at hx
  | cons x xs ih =>
    intro hex
    by_cases hp : p x = true
    · exact ⟨0, Nat.succ_pos _, by simpa using hp,
        by rw [List.find?_cons_of_pos _ hp]; rfl, fun j hj => absurd hj (Nat.not_lt_zero j)⟩
    · have hex2 : ∃ y ∈ xs, p y = true := by
        obtain ⟨y, hy, hpy⟩ := hex
        cases List.mem_cons.mp hy with
        | inl h => exact absurd (h ▸ hpy) hp
        | inr h => exact ⟨y, h, hpy⟩
      obtain ⟨i, hi, hpi, hfind, hfirst⟩ := ih hex2
      refine ⟨i + 1, by simpa using hi, by simpa using hpi, ?_, ?_⟩
      · rw [List.find?_cons_of_neg _ (by simpa using hp)]
        simpa using hfind
      · intro j hj
        cases j with
        | zero => simpa using Bool.eq_false_iff.mpr hp
        | succ j2 => simpa using hfirst j2 (by omega)

theorem mem_strVals_of_cell (t : Table) (c : String) (r : List Value) (s : String)
    (hr : r ∈ t.rows) (hcell : cellOf t.cols r c = Value.str s) :
    s ∈ strValsOf (dropna (colValues t c)) := by
  have hv : Value.str s ∈ colValues t c := by
    unfold colValues
    exact List.mem_map.mpr ⟨r, hr, hcell⟩
  have hd : Value.str s ∈ dropna (colValues t c) := by
    unfold dropna
    exact List.mem_filter.mpr ⟨hv, by simp⟩
  unfold strValsOf
  exact List.mem_filterMap.mpr ⟨Value.str s, hd, rfl⟩

theorem filterRows_idem (rows : List (List Value)) (p : List Value → Bool) :
    (rows.filter p).filter p = rows.filter p := by
  rw [List.filter_filter]
  simp only [Bool.and_self]

theorem filter_satSys_rows (t : Table) (sats : List String) :
    (filter_satSys t sats).rows = (stringifyCol t "satSys").rows.filter
      (fun r => satSysKeep sats (cellOf t.cols r "satSys")) := rfl

theorem filter_lookDir_rows (t : Table) (dirs : List String) :
    (filter_lookDir t dirs).rows = (stringifyCol t "lookDir").rows.filter
      (fun r => dirs.any fun d => pySubstr d (pyStr (cellOf t.cols r "lookDir"))) := rfl

theorem filter_instrClass_true_rows (t : Table) (types : List String) :
    (filter_instrClass t types true).rows = (stringifyCol t "instrClass").rows.filter
      (fun r => types.any fun ty => pyEq (cellOf t.cols r "instrClass") (Value.str ty)) := rfl

theorem filter_instrClass_false_rows (t : Table) (types : List String) :
    (filter_instrClass t types false).rows =
      (nonstrictKept t types).map (normRow t.cols types) := rfl

theorem stringify_row_fix (cols : List String) (r : List Value) (c : String) (s : String)
    (hcell : cellOf cols r c = Value.str s) :
    r.set (cols.indexOf c) (Value.str (pyStr (cellOf cols r c))) = r := by
  have hlt := cell_lt_of_str cols r c s hcell
  rw [hcell]
  show r.set (cols.indexOf c) (Value.str s) = r
  have hv : Value.str s = r.getD (cols.indexOf c) Value.na := hcell.symm
  rw [hv]
  exact set_getD_self r _ _ hlt

theorem mem_stringify_of_str (t : Table) (c : String) (r : List Value) (s : String)
    (hr : r ∈ t.rows) (hcell : cellOf t.cols r c = Value.str s) :
    r ∈ (stringifyCol t c).rows :=
  List.mem_map.mpr ⟨r, hr, stringify_row_fix t.cols r c s hcell⟩

theorem length_of_mem_stringify (t : Table) (c : String) (r : List Value)
    (hwf : t.WF) (hr : r ∈ (stringifyCol t c).rows) : r.length = t.cols.length := by
  obtain ⟨r0, hr0, hr0e⟩ := List.mem_map.mp hr
  rw [← hr0e, List.length_set]
  exact hwf r0 hr0

theorem any_fst_eq_of_mem_map_fst (m : List (String × String)) (s : String)
    (h : s ∈ m.map Prod.fst) : (m.any fun p => p.1 == s) = true := by
  obtain ⟨p, hp, hps⟩ := List.mem_map.mp h
  refine List.any_eq_true.mpr ⟨p, hp, ?_⟩
  rw [hps]
  exact beq_self_eq_true s

theorem ownerColorMap_keys (css4 : List String) (t : Table) (ownerCol : String)
    (hcss : css4 ≠ []) :
    (ownerColorMapOf css4 t ownerCol).map Prod.fst = distinctSorted t ownerCol := by
  unfold ownerColorMapOf
  exact List.map_fst_zip _ _ (extendColors_length_ge _ _ _ hcss)

theorem instrIconMap_keys (t : Table) (instrCol : String) :
    (instrIconMapOf t instrCol).map Prod.fst = distinctSorted t instrCol := by
  unfold instrIconMapOf
  rw [List.map_map]
  exact List.enum_map_snd _

/-! ### Claims -/

/-- C1: for every filter function (valid, country, active, satellite
system, instrument class in either mode, owner, site id, look direction)
and every input table, the returned table has at most as many rows as the
input; no filter ever adds rows. -/
theorem c1_filters_never_add_rows (t : Table)
    (countries sats types owners sites dirs : List String) (strict : Bool) :
    (filter_valid t).rows.length ≤ t.rows.length ∧
    (filter_country t countries).rows.length ≤ t.rows.length ∧
    (filter_active t).rows.length ≤ t.rows.length ∧
    (filter_satSys t sats).rows.length ≤ t.rows.length ∧
    (filter_instrClass t types strict).rows.length ≤ t.rows.length ∧
    (filter_owner t owners).rows.length ≤ t.rows.length ∧
    (filter_siteId t sites).rows.length ≤ t.rows.length ∧
    (filter_lookDir t dirs).rows.length ≤ t.rows.length := by
  have hmap : ∀ (c : String), (stringifyCol t c).rows.length = t.rows.length := by
    intro c
    unfold stringifyCol
    exact List.length_map _ _
  refine ⟨List.length_filter_le _ _, List.length_filter_le _ _, List.length_filter_le _ _,
    le_trans (List.length_filter_le _ _) (le_of_eq (hmap _)), ?_,
    List.length_filter_le _ _, List.length_filter_le _ _,
    le_trans (List.length_filter_le _ _) (le_of_eq (hmap _))⟩
  cases strict with
  | true =>
    simp only [filter_instrClass, if_true]
    exact le_trans (List.length_filter_le _ _) (le_of_eq (hmap _))
  | false =>
    simp only [filter_instrClass, Bool.false_eq_true, if_false]
    rw [List.length_map]
    exact le_trans (List.length_filter_le _ _) (le_of_eq (hmap _))

/-- C2: if the table is empty or lacks the latitude or longitude column,
the renderer returns no map object and writes neither the GeoJSON file
nor the HTML file. -/
theorem c2_render_guards (t : Table) (css4 : List String)
    (latCol lonCol ownerCol instrCol : String) (popupCols : List String)
    (mapTitle : String) (htmlPath : Option String) (geojsonPath : String)
    (h : t.rows = [] ∨ latCol ∉ t.cols ∨ lonCol ∉ t.cols) :
    plot_insar_points_interactive t css4 latCol lonCol ownerCol instrCol
      popupCols mapTitle htmlPath geojsonPath = (none, []) := by
  unfold plot_insar_points_interactive
  rcases h with h | h | h
  · rw [if_pos (Or.inl h)]
  · by_cases h0 : t.rows = [] ∨ t.cols = []
    · rw [if_pos h0]
    · rw [if_neg h0, if_pos (Or.inl h)]
  · by_cases h0 : t.rows = [] ∨ t.cols = []
    · rw [if_pos h0]
    · rw [if_neg h0, if_pos (Or.inr h)]

/-- C2 witness: the renderer on a concrete zero-row table. -/
theorem c2_render_guards_witness :
    ((⟨["latitude", "longitude"], []⟩ : Table).rows = []) ∧
    plot_insar_points_interactive ⟨["latitude", "longitude"], []⟩ []
      "latitude" "longitude" "owner" "instrClass" [] "T" none "p.geojson" = (none, []) :=
  ⟨rfl, c2_render_guards _ _ _ _ _ _ _ _ _ _ (Or.inl rfl)⟩

/-- C4: every row kept by the strict instrument-class filter is also kept
(selected) by the non-strict instrument-class filter on the same table and
type set — exact membership implies substring containment — and the
non-strict filter's output is exactly that selection with the documented
normalization applied. -/
theorem c4_strict_subset_nonstrict (t : Table) (types : List String) :
    ((filter_instrClass t types true).rows.Sublist (nonstrictKept t types)) ∧
    (∀ r ∈ (filter_instrClass t types true).rows, r ∈ nonstrictKept t types) ∧
    (filter_instrClass t types false).rows = (nonstrictKept t types).map (normRow t.cols types) := by
  have hmono : ((stringifyCol t "instrClass").rows.filter fun r =>
      types.any fun ty => pyEq (cellOf t.cols r "instrClass") (Value.str ty)).Sublist
        (nonstrictKept t types) := by
    unfold nonstrictKept
    refine filter_sublist_mono _ _ _ ?_
    intro r hr
    obtain ⟨ty, hty, hpe⟩ := List.any_eq_true.mp hr
    have hcell : cellOf t.cols r "instrClass" = Value.str ty := by
      cases hc : cellOf t.cols r "instrClass" with
      | str s =>
        rw [hc] at hpe
        have : s = ty := by simpa [pyEq] using hpe
        rw [this]
      | int n => rw [hc] at hpe; simp [pyEq] at hpe
      | bool b => rw [hc] at hpe; simp [pyEq] at hpe
      | na => rw [hc] at hpe; simp [pyEq] at hpe
    unfold instrKeep
    refine List.any_eq_true.mpr ⟨ty, hty, ?_⟩
    rw [hcell]
    show pySubstr ty (pyStr (Value.str ty)) = true
    unfold pySubstr pyStr
    exact decide_eq_true (List.infix_refl _)
  have hstrict : (filter_instrClass t types true).rows =
      (stringifyCol t "instrClass").rows.filter fun r =>
        types.any fun ty => pyEq (cellOf t.cols r "instrClass") (Value.str ty) := rfl
  refine ⟨hstrict ▸ hmono, ?_, rfl⟩
  intro r hr
  exact (hstrict ▸ hmono).subset hr

/-- C3: for a non-empty type set, the non-strict instrument-class filter
keeps exactly the rows whose (stringified) instrument-class value contains
some member of the set as a substring, rewrites each kept row's value to
the first member (in caller-supplied order) occurring in it, and
consequently every kept row's resulting value is a member of the set. -/
theorem c3_nonstrict_keeps_and_normalizes (t : Table) (types : List String)
    (_hne : types ≠ []) (hwf : t.WF) (hc : "instrClass" ∈ t.cols) :
    ((filter_instrClass t types false).rows =
      (nonstrictKept t types).map (normRow t.cols types)) ∧
    (∀ r ∈ (stringifyCol t "instrClass").rows,
      (r ∈ nonstrictKept t types ↔ instrKeep types (cellOf t.cols r "instrClass") = true)) ∧
    (∀ r ∈ nonstrictKept t types, ∃ i, i < types.length ∧
      pySubstr (types.getD i "") (pyStr (cellOf t.cols r "instrClass")) = true ∧
      cellOf t.cols (normRow t.cols types r) "instrClass" = Value.str (types.getD i "") ∧
      ∀ j, j < i → pySubstr (types.getD j "") (pyStr (cellOf t.cols r "instrClass")) = false) ∧
    (∀ r ∈ (filter_instrClass t types false).rows,
      ∃ s ∈ types, cellOf t.cols r "instrClass" = Value.str s) := by
  have hfirst : ∀ r ∈ nonstrictKept t types, ∃ i, i < types.length ∧
      pySubstr (types.getD i "") (pyStr (cellOf t.cols r "instrClass")) = true ∧
      cellOf t.cols (normRow t.cols types r) "instrClass" = Value.str (types.getD i "") ∧
      ∀ j, j < i → pySubstr (types.getD j "") (pyStr (cellOf t.cols r "instrClass")) = false := by
    intro r hr
    have hmem := List.mem_filter.mp hr
    have hkeep : instrKeep types (cellOf t.cols r "instrClass") = true := hmem.2
    have hrlen : r.length = t.cols.length :=
      length_of_mem_stringify t "instrClass" r hwf hmem.1
    have hex : ∃ x ∈ types,
        (fun ty => pySubstr ty (pyStr (cellOf t.cols r "instrClass"))) x = true := by
      obtain ⟨ty, hty, hsub⟩ := List.any_eq_true.mp hkeep
      exact ⟨ty, hty, hsub⟩
    obtain ⟨i, hi, hpi, hfind, hfirstj⟩ := find?_first_index _ types hex
    refine ⟨i, hi, hpi, ?_, hfirstj⟩
    have hnorm : normalizeInstr types (pyStr (cellOf t.cols r "instrClass")) =
        types.getD i "" := by
      unfold normalizeInstr
      rw [hfind]
    have hset := cellOf_set_self t.cols r "instrClass"
      (Value.str (normalizeInstr types (pyStr (cellOf t.cols r "instrClass")))) hc hrlen
    exact hset.trans (congrArg Value.str hnorm)
  refine ⟨rfl, ?_, hfirst, ?_⟩
  · intro r hrs
    constructor
    · intro h2
      exact (List.mem_filter.mp h2).2
    · intro hk
      exact List.mem_filter.mpr ⟨hrs, hk⟩
  · intro r hr
    rw [filter_instrClass_false_rows] at hr
    obtain ⟨r0, hr0, hre⟩ := List.mem_map.mp hr
    obtain ⟨i, hi, _, hcell, _⟩ := hfirst r0 hr0
    refine ⟨types.getD i "", ?_, ?_⟩
    · rw [List.getD_eq_getElem _ _ hi]
      exact List.getElem_mem _
    · rw [← hre]
      exact hcell

/-- C3 witness: the spec's end-to-end scenario, `CR123` and `TR` filtered
non-strictly with types `["CR"]`. -/
theorem c3_nonstrict_keeps_and_normalizes_witness :
    ((["CR"] : List String) ≠ []) ∧ tInstr.WF ∧ "instrClass" ∈ tInstr.cols ∧
    (((filter_instrClass tInstr ["CR"] false).rows =
        (nonstrictKept tInstr ["CR"]).map (normRow tInstr.cols ["CR"])) ∧
      (∀ r ∈ (stringifyCol tInstr "instrClass").rows,
        (r ∈ nonstrictKept tInstr ["CR"] ↔
          instrKeep ["CR"] (cellOf tInstr.cols r "instrClass") = true)) ∧
      (∀ r ∈ nonstrictKept tInstr ["CR"], ∃ i, i < (["CR"] : List String).length ∧
        pySubstr ((["CR"] : List String).getD i "") (pyStr (cellOf tInstr.cols r "instrClass")) = true ∧
        cellOf tInstr.cols (normRow tInstr.cols ["CR"] r) "instrClass" =
          Value.str ((["CR"] : List String).getD i "") ∧
        ∀ j, j < i →
          pySubstr ((["CR"] : List String).getD j "") (pyStr (cellOf tInstr.cols r "instrClass")) = false) ∧
      (∀ r ∈ (filter_instrClass tInstr ["CR"] false).rows,
        ∃ s ∈ (["CR"] : List String), cellOf tInstr.cols r "instrClass" = Value.str s)) :=
  ⟨by decide, by decide, by decide,
    c3_nonstrict_keeps_and_normalizes tInstr ["CR"] (by decide) (by decide) (by decide)⟩

/-- C5: a row is kept by the satellite-system filter exactly when its
satellite-system string contains `All` case-insensitively or contains one
of the requested codes as a substring; in particular a row with value
`All` is kept regardless of the requested set, and a row with value
`S1A,RS2` is kept when `S1A` is requested. -/
theorem c5_satSys_keep_iff (t : Table) (sats : List String) :
    (∀ r ∈ t.rows, ∀ s, cellOf t.cols r "satSys" = Value.str s →
      (r ∈ (filter_satSys t sats).rows ↔
        (pySubstr "all" (pyLower s) = true ∨ ∃ c ∈ sats, pySubstr c s = true))) ∧
    (∀ r ∈ t.rows, cellOf t.cols r "satSys" = Value.str "All" →
      r ∈ (filter_satSys t sats).rows) ∧
    (∀ r ∈ t.rows, "S1A" ∈ sats → cellOf t.cols r "satSys" = Value.str "S1A,RS2" →
      r ∈ (filter_satSys t sats).rows) := by
  have hchar : ∀ r ∈ t.rows, ∀ s, cellOf t.cols r "satSys" = Value.str s →
      (r ∈ (filter_satSys t sats).rows ↔
        (pySubstr "all" (pyLower s) = true ∨ ∃ c ∈ sats, pySubstr c s = true)) := by
    intro r hr s hcell
    rw [filter_satSys_rows, List.mem_filter]
    constructor
    · rintro ⟨_, hk⟩
      have hk2 : satSysKeep sats (cellOf t.cols r "satSys") = true := hk
      rw [hcell] at hk2
      unfold satSysKeep at hk2
      simp only [Bool.or_eq_true, List.any_eq_true] at hk2
      exact hk2
    · intro hdisj
      have hkeep : satSysKeep sats (cellOf t.cols r "satSys") = true := by
        rw [hcell]
        unfold satSysKeep
        simp only [Bool.or_eq_true, List.any_eq_true]
        exact hdisj
      exact ⟨mem_stringify_of_str t "satSys" r s hr hcell, hkeep⟩
  refine ⟨hchar, ?_, ?_⟩
  · intro r hr hcell
    exact (hchar r hr "All" hcell).mpr (Or.inl (by decide))
  · intro r hr hS hcell
    exact (hchar r hr "S1A,RS2" hcell).mpr (Or.inr ⟨"S1A", hS, by decide⟩)

/-- C5 witness: the three-row table with values `All`, `S1A,RS2`, `ZZZ`
and requested set `["S1A"]`; the concrete filter output is also checked. -/
theorem c5_satSys_keep_iff_witness :
    ((∀ r ∈ tSatTbl.rows, ∀ s, cellOf tSatTbl.cols r "satSys" = Value.str s →
        (r ∈ (filter_satSys tSatTbl ["S1A"]).rows ↔
          (pySubstr "all" (pyLower s) = true ∨ ∃ c ∈ (["S1A"] : List String), pySubstr c s = true))) ∧
      (∀ r ∈ tSatTbl.rows, cellOf tSatTbl.cols r "satSys" = Value.str "All" →
        r ∈ (filter_satSys tSatTbl ["S1A"]).rows) ∧
      (∀ r ∈ tSatTbl.rows, "S1A" ∈ (["S1A"] : List String) →
        cellOf tSatTbl.cols r "satSys" = Value.str "S1A,RS2" →
        r ∈ (filter_satSys tSatTbl ["S1A"]).rows)) ∧
    (filter_satSys tSatTbl ["S1A"]).rows = [[Value.str "All"], [Value.str "S1A,RS2"]] :=
  ⟨c5_satSys_keep_iff tSatTbl ["S1A"], by decide⟩

/-- C6: the valid, active, country, owner, and site-id filters are
idempotent: applying any of them twice (with the same caller-supplied
set, where applicable) yields the same table as applying it once. -/
theorem c6_plain_filters_idempotent (t : Table) (countries owners sites : List String) :
    filter_valid (filter_valid t) = filter_valid t ∧
    filter_active (filter_active t) = filter_active t ∧
    filter_country (filter_country t countries) countries = filter_country t countries ∧
    filter_owner (filter_owner t owners) owners = filter_owner t owners ∧
    filter_siteId (filter_siteId t sites) sites = filter_siteId t sites := by
  obtain ⟨cols, rows⟩ := t
  refine ⟨?_, ?_, ?_, ?_, ?_⟩ <;>
    simp only [filter_valid, filter_active, filter_country, filter_owner, filter_siteId,
      Table.mk.injEq, true_and] <;>
    exact filterRows_idem _ _

/-- C7: the filters select rows without altering values (the embedding is
pure, so the input table itself is never modified).  On tables whose
satellite-system, look-direction and instrument-class columns hold string
values — as the data model specifies — every filter except the non-strict
instrument-class mode returns a subsequence of the input rows unchanged,
and the non-strict instrument-class filter returns rows that agree with an
input row on every other column and carry the documented normalization on
the instrument-class column. -/
theorem c7_filters_select_not_alter (t : Table)
    (countries sats types owners sites dirs : List String)
    (hwf : t.WF) (hsat : strTyped t "satSys") (hlook : strTyped t "lookDir")
    (hinstr : strTyped t "instrClass") :
    (filter_valid t).rows.Sublist t.rows ∧
    (filter_country t countries).rows.Sublist t.rows ∧
    (filter_active t).rows.Sublist t.rows ∧
    (filter_owner t owners).rows.Sublist t.rows ∧
    (filter_siteId t sites).rows.Sublist t.rows ∧
    (filter_satSys t sats).rows.Sublist t.rows ∧
    (filter_lookDir t dirs).rows.Sublist t.rows ∧
    (filter_instrClass t types true).rows.Sublist t.rows ∧
    (∀ r ∈ (filter_instrClass t types false).rows, ∃ r0 ∈ t.rows,
      (∀ c, c ≠ "instrClass" → cellOf t.cols r c = cellOf t.cols r0 c) ∧
      cellOf t.cols r "instrClass" =
        Value.str (normalizeInstr types (pyStr (cellOf t.cols r0 "instrClass")))) := by
  have hsid : stringifyCol t "satSys" = t := stringify_id_of_strTyped t "satSys" hsat
  have hlid : stringifyCol t "lookDir" = t := stringify_id_of_strTyped t "lookDir" hlook
  have hiid : stringifyCol t "instrClass" = t := stringify_id_of_strTyped t "instrClass" hinstr
  refine ⟨List.filter_sublist _, List.filter_sublist _, List.filter_sublist _,
    List.filter_sublist _, List.filter_sublist _, ?_, ?_, ?_, ?_⟩
  · rw [filter_satSys_rows, hsid]
    exact List.filter_sublist _
  · rw [filter_lookDir_rows, hlid]
    exact List.filter_sublist _
  · rw [filter_instrClass_true_rows, hiid]
    exact List.filter_sublist _
  · intro r hr
    rw [filter_instrClass_false_rows] at hr
    obtain ⟨r0, hr0k, hre⟩ := List.mem_map.mp hr
    have hr0mem : r0 ∈ t.rows := by
      have hm := (List.mem_filter.mp hr0k).1
      rwa [hiid] at hm
    have hr0len : r0.length = t.cols.length := hwf r0 hr0mem
    have hcmem : "instrClass" ∈ t.cols := by
      obtain ⟨s, hs2⟩ := isStr_exists (hinstr r0 hr0mem)
      have hlt := cell_lt_of_str t.cols r0 "instrClass" s hs2
      rw [hr0len] at hlt
      exact List.indexOf_lt_length.mp hlt
    refine ⟨r0, hr0mem, ?_, ?_⟩
    · intro c hcne
      rw [← hre]
      exact cellOf_set_ne t.cols r0 c "instrClass" _ hcne hr0len
    · rw [← hre]
      exact cellOf_set_self t.cols r0 "instrClass" _ hcmem hr0len

/-- C7 witness: the one-row table carrying all filtered columns. -/
theorem c7_filters_select_not_alter_witness :
    tFull.WF ∧ strTyped tFull "satSys" ∧ strTyped tFull "lookDir" ∧
    strTyped tFull "instrClass" ∧
    ((filter_valid tFull).rows.Sublist tFull.rows ∧
      (filter_country tFull ["NLD"]).rows.Sublist tFull.rows ∧
      (filter_active tFull).rows.Sublist tFull.rows ∧
      (filter_owner tFull ["TUD"]).rows.Sublist tFull.rows ∧
      (filter_siteId tFull ["HENGELO"]).rows.Sublist tFull.rows ∧
      (filter_satSys tFull ["S1A"]).rows.Sublist tFull.rows ∧
      (filter_lookDir tFull ["E"]).rows.Sublist tFull.rows ∧
      (filter_instrClass tFull ["CR"] true).rows.Sublist tFull.rows ∧
      (∀ r ∈ (filter_instrClass tFull ["CR"] false).rows, ∃ r0 ∈ tFull.rows,
        (∀ c, c ≠ "instrClass" → cellOf tFull.cols r c = cellOf tFull.cols r0 c) ∧
        cellOf tFull.cols r "instrClass" =
          Value.str (normalizeInstr ["CR"] (pyStr (cellOf tFull.cols r0 "instrClass"))))) :=
  ⟨by decide, by decide, by decide, by decide,
    c7_filters_select_not_alter tFull ["NLD"] ["S1A"] ["CR"] ["TUD"] ["HENGELO"] ["E"]
      (by decide) (by decide) (by decide) (by decide)⟩

/-- C8: the owner color map is a function of the set of distinct owner
values only — two tables with the same distinct owner set get identical
maps — and the assignment is positional: the i-th sorted owner receives
the i-th color of the (extended) fixed palette. -/
theorem c8_color_map_deterministic (css4 : List String) (t1 t2 : Table) (ownerCol : String)
    (hcss : css4 ≠ [])
    (h12 : ∀ s ∈ strValsOf (dropna (colValues t1 ownerCol)),
      s ∈ strValsOf (dropna (colValues t2 ownerCol)))
    (h21 : ∀ s ∈ strValsOf (dropna (colValues t2 ownerCol)),
      s ∈ strValsOf (dropna (colValues t1 ownerCol))) :
    ownerColorMapOf css4 t1 ownerCol = ownerColorMapOf css4 t2 ownerCol ∧
    (∀ i, i < (distinctSorted t1 ownerCol).length →
      dictGetS (ownerColorMapOf css4 t1 ownerCol)
          ((distinctSorted t1 ownerCol).getD i "") "gray" =
        (extendColors tableauColors css4 (distinctSorted t1 ownerCol).length).getD i "gray") := by
  have hds : distinctSorted t1 ownerCol = distinctSorted t2 ownerCol :=
    distinctSorted_eq_of_mem_iff t1 t2 ownerCol ownerCol
      (fun s => ⟨fun hm => h12 s hm, fun hm => h21 s hm⟩)
  constructor
  · unfold ownerColorMapOf
    rw [hds]
  · intro i hi
    exact dictGetS_zip "gray" (distinctSorted t1 ownerCol) _ i
      (nodup_distinctSorted t1 ownerCol) hi
      (lt_of_lt_of_le hi (extendColors_length_ge _ _ _ hcss))

/-- C8 witness: two tables listing owners `A` and `B` in different orders
and multiplicities; their color maps coincide, concretely checked. -/
theorem c8_color_map_deterministic_witness :
    ((["aliceblue"] : List String) ≠ []) ∧
    ownerColorMapOf ["aliceblue"] tOwnersA "owner" =
      ownerColorMapOf ["aliceblue"] tOwnersB "owner" ∧
    ownerColorMapOf ["aliceblue"] tOwnersA "owner" =
      [("A", "#1f77b4"), ("B", "#ff7f0e")] :=
  ⟨by decide,
    (c8_color_map_deterministic ["aliceblue"] tOwnersA tOwnersB "owner"
      (by decide) (by decide) (by decide)).1,
    by decide⟩

/-- C9 counterexample: on a renderable table whose single row has a NaN
owner, the row's owner value is not in the color map's domain and the
rendered marker takes the `"gray"` fallback — the fallback branch is
reachable, contrary to the claim. -/
theorem c9_fallback_reachable_counterexample :
    (∃ r ∈ tNaOwner.rows,
      valueInKeys (cellOf tNaOwner.cols r "owner")
        (ownerColorMapOf ["aliceblue"] tNaOwner "owner") = false) ∧
    Option.map (fun m => m.markers.map Marker.color)
      (plot_insar_points_interactive tNaOwner ["aliceblue"]).1 = some ["gray"] ∧
    (plot_insar_points_interactive tNaOwner ["aliceblue"]).1 ≠ none := by decide

/-- C9 (amended): a value absent from the color map resolves to `"gray"`
and one absent from the shape map to `"circle"`; and because the maps are
built from the same table, every row whose owner (resp. instrument-class)
value is a non-null string is in the color (resp. shape) map's domain —
only rows with missing values reach the fallback. -/
theorem c9_map_defaults_and_domain (t : Table) (css4 : List String) (hcss : css4 ≠ []) :
    (∀ (m : List (String × String)) (v : Value) (d : String),
      valueInKeys v m = false → dictGetV m v d = d) ∧
    (∀ r ∈ t.rows, ∀ s, cellOf t.cols r "owner" = Value.str s →
      valueInKeys (cellOf t.cols r "owner") (ownerColorMapOf css4 t "owner") = true) ∧
    (∀ r ∈ t.rows, ∀ s, cellOf t.cols r "instrClass" = Value.str s →
      valueInKeys (cellOf t.cols r "instrClass") (instrIconMapOf t "instrClass") = true) := by
  refine ⟨?_, ?_, ?_⟩
  · intro m v d hfalse
    cases v with
    | str s =>
      have hall := List.any_eq_false.mp hfalse
      have hnone : m.find? (fun p => p.1 == s) = none := by
        rw [List.find?_eq_none]
        exact hall
      show (match m.find? (fun p => p.1 == s) with | some p => p.2 | none => d) = d
      rw [hnone]
    | int n => rfl
    | bool b => rfl
    | na => rfl
  · intro r hr s hcell
    rw [hcell]
    show ((ownerColorMapOf css4 t "owner").any fun p => p.1 == s) = true
    apply any_fst_eq_of_mem_map_fst
    rw [ownerColorMap_keys css4 t "owner" hcss, mem_distinctSorted]
    exact mem_strVals_of_cell t "owner" r s hr hcell
  · intro r hr s hcell
    rw [hcell]
    show ((instrIconMapOf t "instrClass").any fun p => p.1 == s) = true
    apply any_fst_eq_of_mem_map_fst
    rw [instrIconMap_keys t "instrClass", mem_distinctSorted]
    exact mem_strVals_of_cell t "instrClass" r s hr hcell

/-- C9 witness: the map defaults and domain coverage at a concrete one-row
table with string owner and instrument class. -/
theorem c9_map_defaults_and_domain_witness :
    ((["aliceblue"] : List String) ≠ []) ∧
    ((∀ (m : List (String × String)) (v : Value) (d : String),
        valueInKeys v m = false → dictGetV m v d = d) ∧
      (∀ r ∈ tOwnerInstr.rows, ∀ s, cellOf tOwnerInstr.cols r "owner" = Value.str s →
        valueInKeys (cellOf tOwnerInstr.cols r "owner")
          (ownerColorMapOf ["aliceblue"] tOwnerInstr "owner") = true) ∧
      (∀ r ∈ tOwnerInstr.rows, ∀ s, cellOf tOwnerInstr.cols r "instrClass" = Value.str s →
        valueInKeys (cellOf tOwnerInstr.cols r "instrClass")
          (instrIconMapOf tOwnerInstr "instrClass") = true)) :=
  ⟨by decide, c9_map_defaults_and_domain tOwnerInstr ["aliceblue"] (by decide)⟩

/-- C10 counterexample: the non-strict instrument-class filter rewrites
`CR123` to `CR`, so its output rows are not a subsequence of the input
rows — the claim fails as stated for that filter. -/
theorem c10_not_always_subsequence :
    ¬ (filter_instrClass tCR123 ["CR"] false).rows.Sublist tCR123.rows := by
  intro h
  have hm : [Value.str "CR"] ∈ (filter_instrClass tCR123 ["CR"] false).rows := by decide
  have hmem := h.subset hm
  have hnot : [Value.str "CR"] ∉ tCR123.rows := by decide
  exact hnot hmem

/-- C10 (amended): every filter's kept-row selection is an order-preserving,
duplication-free subsequence — of the input rows themselves for the
valid/country/active/owner/site-id filters, and of the input rows with the
examined column coerced to string (the identity on string-typed tables)
for the satellite-system, look-direction and instrument-class filters; the
non-strict instrument-class filter returns exactly that subsequence with
the per-row normalization applied, so each output row still originates
from exactly one input row. -/
theorem c10_order_preserving_selection (t : Table)
    (countries sats types owners sites dirs : List String) :
    (filter_valid t).rows.Sublist t.rows ∧
    (filter_country t countries).rows.Sublist t.rows ∧
    (filter_active t).rows.Sublist t.rows ∧
    (filter_owner t owners).rows.Sublist t.rows ∧
    (filter_siteId t sites).rows.Sublist t.rows ∧
    (filter_satSys t sats).rows.Sublist (stringifyCol t "satSys").rows ∧
    (filter_lookDir t dirs).rows.Sublist (stringifyCol t "lookDir").rows ∧
    (filter_instrClass t types true).rows.Sublist (stringifyCol t "instrClass").rows ∧
    (filter_instrClass t types false).rows = (nonstrictKept t types).map (normRow t.cols types) ∧
    (nonstrictKept t types).Sublist (stringifyCol t "instrClass").rows ∧
    (∀ c, (stringifyCol t c).rows.length = t.rows.length) := by
  refine ⟨List.filter_sublist _, List.filter_sublist _, List.filter_sublist _,
    List.filter_sublist _, List.filter_sublist _, ?_, ?_, ?_, rfl, ?_, ?_⟩
  · rw [filter_satSys_rows]
    exact List.filter_sublist _
  · rw [filter_lookDir_rows]
    exact List.filter_sublist _
  · rw [filter_instrClass_true_rows]
    exact List.filter_sublist _
  · unfold nonstrictKept
    exact List.filter_sublist _
  · intro c
    unfold stringifyCol
    exact List.length_map _ _

end InSAR
